import Mathlib

/-!
Shallow embedding of the tiered IP-range resolution engine of the rasn
repository, and proofs about it.

The embedding follows the Rust source:
  - rasn-core/src/lib.rs   : Asn, AsnInfo
  - rasn-arrow/src/lib.rs  : IpRangeTableV4 (hot range table, binary search)
  - rasn-db/src/lib.rs     : ColdStorage (key-ordered range store, metadata)
  - rasn-cache/src/lib.rs  : CacheLayer (LRU + TTL cache, statistics)
  - rasn-mcp/src/lib.rs    : McpServer.handle_lookup_ip (tier composition)

Machine integers (u32, u64) are modelled as Nat: the source performs no
wrapping arithmetic on any path modelled here, only comparisons, so no
explicit modulus is needed.  Time (std::time::Instant) is modelled as an
explicit Nat parameter threaded through the cache operations.  Fallible
Rust functions returning Result are modelled with Except.
-/

deriving instance DecidableEq for Except

namespace Rasn

/-- Autonomous System Number, rasn-core: `pub struct Asn(pub u32)`. -/
structure Asn where
  val : Nat
deriving DecidableEq, Repr

/-- ASN metadata record, rasn-core: `pub struct AsnInfo`. -/
structure AsnInfo where
  asn : Asn
  organization : String
  country : Option String
  description : Option String
deriving DecidableEq, Repr

end Rasn

namespace Rasn

/-! ### Hot range table (rasn-arrow) -/

/-- The columnar IPv4 range table, rasn-arrow: `struct IpRangeTableV4`.
The Arrow UInt32Array columns are modelled as lists of Nat; the two
dictionary-encoded string columns are modelled after extraction as lists
of String, exactly as the source stores them (`countries: Vec<String>`,
`orgs: Vec<String>`).  The source caches the row count in `len`. -/
structure IpRangeTableV4 where
  start_ips : List Nat
  end_ips : List Nat
  asns : List Nat
  countries : List String
  orgs : List String
  len : Nat
deriving DecidableEq, Repr

/-- The loop of `IpRangeTableV4::binary_search` (rasn-arrow lines 171-190):
maintain [left, right); compare ip with start/end at mid; return the index
whose range contains ip, or None when the window empties.  Arrow's
`UInt32Array::value` is modelled with `List.getD _ 0`.  The while loop is
rendered as structural recursion on a fuel bound: the window width
right - left shrinks strictly on every iteration, so any fuel of at least
the initial width makes the fueled loop agree with the source loop (the
zero-fuel case is reached only once the window is already empty, where
the source loop also stops with no match). -/
def binarySearchLoop (t : IpRangeTableV4) (ip : Nat) :
    Nat → Nat → Nat → Option Nat
  | 0, _, _ => none
  | fuel + 1, left, right =>
    if left < right then
      let mid := left + (right - left) / 2
      let s := t.start_ips.getD mid 0
      let e := t.end_ips.getD mid 0
      if ip < s then binarySearchLoop t ip fuel left mid
      else if ip > e then binarySearchLoop t ip fuel (mid + 1) right
      else some mid
    else none

/-- `IpRangeTableV4::binary_search`: search the whole table, with fuel
equal to the initial window width. -/
def IpRangeTableV4.binary_search (t : IpRangeTableV4) (ip : Nat) :
    Option Nat :=
  binarySearchLoop t ip t.len 0 t.len

/-- `IpRangeTableV4::find_ip` (rasn-arrow lines 159-168): binary-search for
the row, then assemble an AsnInfo from the row.  The source reads the asn
column with the panicking `value` accessor (modelled `getD _ 0`) and the
two string vectors with the fallible `Vec::get(..)?` (modelled `get?`),
sets `country := some _` and `description := none`. -/
def IpRangeTableV4.find_ip (t : IpRangeTableV4) (ip : Nat) :
    Option AsnInfo :=
  (t.binary_search ip).bind fun idx =>
    (t.orgs.get? idx).bind fun org =>
      (t.countries.get? idx).map fun c =>
        { asn := ⟨t.asns.getD idx 0⟩
          organization := org
          country := some c
          description := none }

/-- Table whose five columns all have the cached length `len`, as
guaranteed by `from_parquet` (all columns come from one record batch). -/
def IpRangeTableV4.wellFormed (t : IpRangeTableV4) : Prop :=
  t.len = t.start_ips.length ∧ t.len = t.end_ips.length ∧
  t.len = t.asns.length ∧ t.len = t.countries.length ∧
  t.len = t.orgs.length

instance (t : IpRangeTableV4) : Decidable t.wellFormed := by
  unfold IpRangeTableV4.wellFormed; infer_instance

/-- The precondition of the spec's hot-table lookup property: every range
has start <= end, ranges are sorted ascending by start, and ranges are
pairwise disjoint.  Phrased over `List.range t.len` so that it is
decidable on concrete tables. -/
def IpRangeTableV4.sortedDisjoint (t : IpRangeTableV4) : Prop :=
  (∀ i ∈ List.range t.len, t.start_ips.getD i 0 ≤ t.end_ips.getD i 0) ∧
  (∀ i ∈ List.range t.len, ∀ j ∈ List.range t.len, i < j →
      t.start_ips.getD i 0 ≤ t.start_ips.getD j 0) ∧
  (∀ i ∈ List.range t.len, ∀ j ∈ List.range t.len, i < j →
      t.end_ips.getD i 0 < t.start_ips.getD j 0 ∨
      t.end_ips.getD j 0 < t.start_ips.getD i 0)

instance (t : IpRangeTableV4) : Decidable t.sortedDisjoint := by
  unfold IpRangeTableV4.sortedDisjoint; infer_instance

/-- The table from `test_binary_search_basic` in rasn-arrow. -/
def testTable : IpRangeTableV4 :=
  { start_ips := [100, 200, 300]
    end_ips := [150, 250, 350]
    asns := [1, 2, 3]
    countries := ["US", "GB", "DE"]
    orgs := ["Org1", "Org2", "Org3"]
    len := 3 }

/-- A table with no rows. -/
def emptyTable : IpRangeTableV4 :=
  { start_ips := [], end_ips := [], asns := [], countries := [], orgs := []
    len := 0 }

end Rasn

namespace Rasn

/-! ### Cold range store (rasn-db) -/

/-- Error taxonomy of rasn-db: `enum StorageError`. -/
inductive StorageError where
  | DatabaseError (msg : String)
  | SerializationError (msg : String)
  | NotFound (msg : String)
  | InvalidData (msg : String)
deriving DecidableEq, Repr

/-- A serde_json::Value, the self-describing record format used for
persisted AsnInfo metadata.  The byte-level JSON text layer is external
library code; values are modelled at the AST level. -/
inductive Json where
  | null
  | bool (b : Bool)
  | num (n : Int)
  | str (s : String)
  | arr (l : List Json)
  | obj (l : List (String × Json))

/-- Serde serialization of AsnInfo as derived in rasn-core: a four-field
object; the newtype `Asn` serializes transparently as its number;
`Option<String>` serializes as null or a string. -/
def encodeAsnInfo (i : AsnInfo) : Json :=
  .obj [ ("asn", .num i.asn.val)
       , ("organization", .str i.organization)
       , ("country", match i.country with | none => .null | some c => .str c)
       , ("description",
          match i.description with | none => .null | some d => .str d) ]

/-- First value stored under a field name in a JSON object. -/
def jsonField (l : List (String × Json)) (k : String) : Option Json :=
  (l.find? (fun p => p.1 == k)).map (fun p => p.2)

/-- Serde deserialization of an `Option<String>` field. -/
def decodeOptString : Json → Except String (Option String)
  | .null => .ok none
  | .str s => .ok (some s)
  | _ => .error "invalid type"

/-- Serde deserialization of AsnInfo as derived in rasn-core: requires an
object with the four fields present (serde has no defaults here), the asn
a non-negative number fitting u32, organization a string, country and
description null-or-string.  Unknown extra fields are ignored (serde
default). -/
def decodeAsnInfo : Json → Except String AsnInfo
  | .obj fields =>
    match jsonField fields "asn" with
    | some (.num n) =>
      if 0 ≤ n ∧ n < 4294967296 then
        match jsonField fields "organization" with
        | some (.str org) =>
          match jsonField fields "country" with
          | some cj =>
            match decodeOptString cj with
            | .ok c =>
              match jsonField fields "description" with
              | some dj =>
                match decodeOptString dj with
                | .ok d =>
                  .ok { asn := ⟨n.toNat⟩, organization := org
                        country := c, description := d }
                | .error e => .error e
              | none => .error "missing field description"
            | .error e => .error e
          | none => .error "missing field country"
        | some _ => .error "invalid type"
        | none => .error "missing field organization"
      else .error "invalid value: out of range for u32"
    | some _ => .error "invalid type"
    | none => .error "missing field asn"
  | _ => .error "invalid type: expected struct AsnInfo"

/-- The cold store, rasn-db `struct ColdStorage`.  RocksDB column families
are key-ordered maps; a u32 key in big-endian byte form sorts exactly as
the number, so each family is modelled as an association list sorted
strictly ascending by its Nat key.
  - `ip_ranges` maps start_ip to (end_ip, asn), as written by
    `put_ip_range` (value = end_ip bytes followed by asn bytes).
  - `asn_metadata` maps asn to the serialized AsnInfo record. -/
structure ColdStorage where
  ip_ranges : List (Nat × Nat × Nat)
  asn_metadata : List (Nat × Json)

/-- Insertion into a key-sorted association list, overwriting an existing
key: the model of a RocksDB `put_cf`. -/
def putKey {α : Type} : List (Nat × α) → Nat → α → List (Nat × α)
  | [], k, v => [(k, v)]
  | (k0, v0) :: rest, k, v =>
    if k < k0 then (k, v) :: (k0, v0) :: rest
    else if k = k0 then (k, v) :: rest
    else (k0, v0) :: putKey rest k v

/-- Point lookup in a key-sorted association list: the model of a RocksDB
`get_cf`. -/
def getKey {α : Type} (l : List (Nat × α)) (k : Nat) : Option α :=
  (l.find? (fun p => p.1 == k)).map (fun p => p.2)

/-- `ColdStorage::put_ip_range` (rasn-db lines 172-185): store
start_ip -> (end_ip, asn) in the ip_ranges family. -/
def ColdStorage.put_ip_range (db : ColdStorage) (start_ip end_ip asn : Nat) :
    ColdStorage :=
  { db with ip_ranges := putKey db.ip_ranges start_ip (end_ip, asn) }

/-- `ColdStorage::put_asn_info` (rasn-db lines 138-145): store the
serialized record under the asn key. -/
def ColdStorage.put_asn_info (db : ColdStorage) (info : AsnInfo) :
    ColdStorage :=
  { db with
    asn_metadata := putKey db.asn_metadata info.asn.val (encodeAsnInfo info) }

/-- The backward iteration of `ColdStorage::find_ip` (rasn-db lines
200-218), applied to the entries at and before the seek_for_prev position
in backward (descending-key) order: return the asn of the first range
containing ip; stop with none when ip < start; otherwise keep walking. -/
def findIpScan : List (Nat × Nat × Nat) → Nat → Option Nat
  | [], _ => none
  | (s, e, a) :: rest, ip =>
    if ip ≥ s ∧ ip ≤ e then some a
    else if ip < s then none
    else findIpScan rest ip

/-- `ColdStorage::find_ip` (rasn-db lines 192-221): seek_for_prev positions
the iterator on the greatest key <= ip; the loop then walks backward.  The
entries visited are exactly those with key <= ip, in descending key order.
Every stored key is 4 bytes and every stored value 8 bytes, so the
length-guard in the loop always passes.  The only error path in the source
is a missing column family, which cannot occur after `open`; the lookup
itself never constructs an error. -/
def ColdStorage.find_ip (db : ColdStorage) (ip : Nat) :
    Except StorageError (Option Nat) :=
  .ok (findIpScan ((db.ip_ranges.filter (fun r => r.1 ≤ ip)).reverse) ip)

/-- `ColdStorage::get_asn_info` (rasn-db lines 152-163): read the record
bytes under the asn key; absent key is Ok(None); present bytes are
deserialized, and a serde_json failure converts through
`From<serde_json::Error> for StorageError` (rasn-db lines 76-80) into
`StorageError::SerializationError`. -/
def ColdStorage.get_asn_info (db : ColdStorage) (asn : Nat) :
    Except StorageError (Option AsnInfo) :=
  match getKey db.asn_metadata asn with
  | none => .ok none
  | some j =>
    match decodeAsnInfo j with
    | .ok info => .ok (some info)
    | .error e => .error (StorageError.SerializationError e)

/-- Pairwise disjointness of the stored ranges (the spec's standing
assumption for the cold tier). -/
def rangesDisjoint (l : List (Nat × Nat × Nat)) : Prop :=
  l.Pairwise (fun r r2 => r.2.1 < r2.1 ∨ r2.2.1 < r.1)

instance (l : List (Nat × Nat × Nat)) : Decidable (rangesDisjoint l) := by
  unfold rangesDisjoint; infer_instance

/-- An empty cold store. -/
def emptyCold : ColdStorage := { ip_ranges := [], asn_metadata := [] }

end Rasn

namespace Rasn

/-! ### Resolution cache (rasn-cache) -/

/-- Cache error, rasn-cache: `enum CacheError`. -/
inductive CacheError where
  | OperationFailed (msg : String)
deriving DecidableEq, Repr

/-- `struct CachedValue`: a cached AsnInfo plus its absolute expiry
instant.  `Instant` is modelled as a Nat. -/
structure CachedValue where
  data : AsnInfo
  expires_at : Nat
deriving DecidableEq, Repr

/-- `CachedValue::new(data, ttl)`: expiry is now + ttl. -/
def CachedValue.mk_new (data : AsnInfo) (ttl now : Nat) : CachedValue :=
  { data := data, expires_at := now + ttl }

/-- `CachedValue::is_expired` at the given instant: strictly past the
expiry (`Instant::now() > self.expires_at`). -/
def CachedValue.is_expired (c : CachedValue) (now : Nat) : Bool :=
  now > c.expires_at

/-- `struct CacheStats` (rasn-cache lines 85-99). -/
structure CacheStats where
  l1_hits : Nat
  l1_misses : Nat
  l2_hits : Nat
  l2_misses : Nat
  l1_size : Nat
  l1_capacity : Nat
deriving DecidableEq, Repr

/-- `CacheStats::hit_rate` (rasn-cache lines 103-111).  The f64 division
is modelled exactly over the rationals; every concrete value appearing in
the theorems below is exactly representable in f64, so the model and the
source agree there. -/
def CacheStats.hit_rate (s : CacheStats) : ℚ :=
  let total_hits : Nat := s.l1_hits + s.l2_hits
  let total_requests : Nat := total_hits + s.l1_misses + s.l2_misses
  if total_requests = 0 then 0
  else ((total_hits : ℚ) / (total_requests : ℚ)) * 100

/-- `CacheStats::l1_hit_rate` (rasn-cache lines 114-121), modelled over
the rationals like `hit_rate`. -/
def CacheStats.l1_hit_rate (s : CacheStats) : ℚ :=
  let total : Nat := s.l1_hits + s.l1_misses
  if total = 0 then 0
  else ((s.l1_hits : ℚ) / (total : ℚ)) * 100

/-- The cache layer, rasn-cache `struct CacheLayer`.  The lru::LruCache
is modelled as an association list in recency order, most recently used
first; keys are unique (an LruCache invariant). -/
structure CacheState where
  l1 : List (String × CachedValue)
  stats : CacheStats
  l1_capacity : Nat
deriving DecidableEq, Repr

/-- `LruCache::put`: remove any existing entry for the key, insert at the
most-recent end, and if the length now exceeds capacity evict the
least-recently-used entry (the last one). -/
def lruPut (l : List (String × CachedValue)) (k : String) (v : CachedValue)
    (cap : Nat) : List (String × CachedValue) :=
  let inserted := (k, v) :: l.filter (fun p => p.1 != k)
  if inserted.length > cap then inserted.dropLast else inserted

/-- `LruCache::pop`: remove the entry for the key if present. -/
def lruPop (l : List (String × CachedValue)) (k : String) :
    List (String × CachedValue) :=
  l.filter (fun p => p.1 != k)

/-- `CacheLayer::new` (rasn-cache lines 148-160): fails on zero capacity,
otherwise starts with an empty LRU and zeroed statistics carrying the
capacity. -/
def cacheNew (l1_capacity : Nat) : Except CacheError CacheState :=
  if l1_capacity = 0 then
    .error (.OperationFailed "Capacity must be > 0")
  else
    .ok { l1 := []
          stats := { l1_hits := 0, l1_misses := 0, l2_hits := 0
                     l2_misses := 0, l1_size := 0, l1_capacity := l1_capacity }
          l1_capacity := l1_capacity }

/-- `CacheLayer::get` (rasn-cache lines 169-188) at instant `now`: on a
fresh entry record a hit, refresh recency, and return the value; on an
expired entry pop it, and fall through with absent keys to recording a
miss and returning none.  The expired path updates no size counter,
exactly as in the source. -/
def cacheGet (st : CacheState) (key : String) (now : Nat) :
    Option AsnInfo × CacheState :=
  match st.l1.find? (fun p => p.1 == key) with
  | some p =>
    if p.2.is_expired now then
      (none, { st with
               l1 := lruPop st.l1 key
               stats := { st.stats with l1_misses := st.stats.l1_misses + 1 } })
    else
      (some p.2.data,
       { st with
         l1 := (p.1, p.2) :: st.l1.filter (fun q => q.1 != key)
         stats := { st.stats with l1_hits := st.stats.l1_hits + 1 } })
  | none =>
    (none, { st with
             stats := { st.stats with l1_misses := st.stats.l1_misses + 1 } })

/-- `CacheLayer::set` (rasn-cache lines 197-205) at instant `now`: put the
value with expiry now + ttl, then refresh the size statistic. -/
def cacheSet (st : CacheState) (key : String) (value : AsnInfo)
    (ttl now : Nat) : CacheState :=
  let l1 := lruPut st.l1 key (CachedValue.mk_new value ttl now) st.l1_capacity
  { st with l1 := l1, stats := { st.stats with l1_size := l1.length } }

/-- `CacheLayer::invalidate` (rasn-cache lines 212-218). -/
def cacheInvalidate (st : CacheState) (key : String) : CacheState :=
  let l1 := lruPop st.l1 key
  { st with l1 := l1, stats := { st.stats with l1_size := l1.length } }

/-- `CacheLayer::clear` (rasn-cache lines 221-227). -/
def cacheClear (st : CacheState) : CacheState :=
  { st with l1 := [], stats := { st.stats with l1_size := 0 } }

/-- One public cache operation, for reasoning about arbitrary operation
sequences.  `stats` returns a snapshot and leaves the state unchanged. -/
inductive CacheOp where
  | get (key : String) (now : Nat)
  | set (key : String) (value : AsnInfo) (ttl now : Nat)
  | invalidate (key : String)
  | clear
  | stats

/-- State transition of a single cache operation. -/
def stepOp (st : CacheState) : CacheOp → CacheState
  | .get key now => (cacheGet st key now).2
  | .set key value ttl now => cacheSet st key value ttl now
  | .invalidate key => cacheInvalidate st key
  | .clear => cacheClear st
  | .stats => st

/-- Run a sequence of cache operations. -/
def runOps (st : CacheState) (ops : List CacheOp) : CacheState :=
  ops.foldl stepOp st

end Rasn

namespace Rasn

/-! ### Resolver composition (rasn-mcp) -/

/-- rasn-mcp: `enum McpError`. -/
inductive McpError where
  | ParseError (msg : String)
  | InvalidRequest (msg : String)
  | MethodNotFound (msg : String)
  | InternalError (msg : String)
  | ArrowError (msg : String)
deriving DecidableEq, Repr

/-- Splitting a character list at the dot separator, the model of
Rust's `ip.split('.')` on the underlying characters. -/
def splitDotAux : List Char → List Char → List String
  | [], acc => [String.mk acc.reverse]
  | c :: rest, acc =>
    if c = Char.ofNat 46 then String.mk acc.reverse :: splitDotAux rest []
    else splitDotAux rest (c :: acc)

/-- `ip.split('.').collect::<Vec<_>>()`. -/
def splitDot (s : String) : List String :=
  splitDotAux s.data []

/-- Decimal digit accumulation used by `str::parse`. -/
def parseDigitsAux : List Char → Nat → Option Nat
  | [], acc => some acc
  | c :: rest, acc =>
    if c.isDigit then parseDigitsAux rest (acc * 10 + (c.toNat - 48))
    else none

/-- One dotted-decimal octet as parsed by `str::parse::<u8>` in
`McpServer::parse_ip`: an optional leading plus sign, then a non-empty
run of decimal digits, with the value bounded by 255 (larger values are
a parse error in Rust's u8 parser). -/
def parseU8 (s : String) : Option Nat :=
  let cs :=
    match s.data with
    | c :: rest => if c = Char.ofNat 43 then rest else s.data
    | [] => []
  match cs with
  | [] => none
  | _ :: _ =>
    match parseDigitsAux cs 0 with
    | some n => if n ≤ 255 then some n else none
    | none => none

/-- The indexed loop of `McpServer::parse_ip`: OR each parsed octet into
the accumulator, shifted to its byte position from the high byte down. -/
def parseIpAux : List String → Nat → Nat → Except String Nat
  | [], _, acc => .ok acc
  | o :: rest, i, acc =>
    match parseU8 o with
    | some n => parseIpAux rest (i + 1) (acc ||| (n <<< (24 - i * 8)))
    | none => .error ("Invalid octet: " ++ o)

/-- `McpServer::parse_ip` (rasn-mcp lines 423-438): split on dots, require
exactly four octets, parse each as u8, and OR the octets into a u32 from
the high byte down. -/
def parse_ip (ip : String) : Except String Nat :=
  let octets := splitDot ip
  if octets.length ≠ 4 then .error "Invalid IP address format"
  else parseIpAux octets 0 0

/-- The MCP server state consumed by `handle_lookup_ip`: the optional hot
table and the cache.  The DNS resolver field plays no part in IP lookup. -/
structure McpServer where
  arrow_table : Option IpRangeTableV4
  cache : CacheState

/-- `McpServer::handle_lookup_ip` (rasn-mcp lines 261-290) at instant
`now`, with the params object already holding the ip string.  Source
order: consult the cache under the raw ip string first; only then parse
the ip; then consult the hot table, caching a hit for 300 seconds; any
remaining case is `Err(InternalError("No ASN found"))`.  No cold store is
a field of the server and none is consulted.  The serde_json value
conversion of a found AsnInfo cannot fail and is modelled as the AsnInfo
itself. -/
def handle_lookup_ip (srv : McpServer) (ip : String) (now : Nat) :
    Except McpError AsnInfo × McpServer :=
  match cacheGet srv.cache ip now with
  | (some cached, c1) => (.ok cached, { srv with cache := c1 })
  | (none, c1) =>
    match parse_ip ip with
    | .error e => (.error (.InvalidRequest ("Invalid params: " ++ e)),
                   { srv with cache := c1 })
    | .ok ip_u32 =>
      match srv.arrow_table with
      | some table =>
        match table.find_ip ip_u32 with
        | some info =>
          let c2 := cacheSet c1 ip info 300 now
          (.ok info, { srv with cache := c2 })
        | none => (.error (.InternalError "No ASN found"),
                   { srv with cache := c1 })
      | none => (.error (.InternalError "No ASN found"),
                 { srv with cache := c1 })

end Rasn

namespace Rasn

/-! ### Shared concrete fixtures -/

/-- The AsnInfo used by the rasn-cache tests. -/
def testInfo : AsnInfo :=
  { asn := ⟨15169⟩, organization := "Google", country := some "US"
    description := some "Google LLC" }

/-- A freshly constructed cache of capacity 2 (the value of
`cacheNew 2`). -/
def testCache : CacheState :=
  { l1 := []
    stats := { l1_hits := 0, l1_misses := 0, l2_hits := 0, l2_misses := 0
               l1_size := 0, l1_capacity := 2 }
    l1_capacity := 2 }

/-- A freshly constructed cache of capacity 100 (the value of
`cacheNew 100`). -/
def cache100 : CacheState :=
  { l1 := []
    stats := { l1_hits := 0, l1_misses := 0, l2_hits := 0, l2_misses := 0
               l1_size := 0, l1_capacity := 100 }
    l1_capacity := 100 }

/-! ### Cache lemmas -/

/-- A single cache operation never decreases the hit counter or the miss
counter. -/
theorem stepOp_counters_mono (st : CacheState) (op : CacheOp) :
    st.stats.l1_hits ≤ (stepOp st op).stats.l1_hits ∧
    st.stats.l1_misses ≤ (stepOp st op).stats.l1_misses := by
  cases op with
  | get key now =>
    simp only [stepOp, cacheGet]
    cases h : st.l1.find? (fun p => p.1 == key) with
    | none => simp
    | some p =>
      by_cases he : p.2.is_expired now
      · simp [he]
      · simp [he]
  | set key value ttl now => simp [stepOp, cacheSet]
  | invalidate key => simp [stepOp, cacheInvalidate]
  | clear => simp [stepOp, cacheClear]
  | stats => simp [stepOp]

/-- A single cache operation leaves the l2 counters untouched (no code
path in rasn-cache updates them). -/
theorem stepOp_l2_fixed (st : CacheState) (op : CacheOp) :
    (stepOp st op).stats.l2_hits = st.stats.l2_hits ∧
    (stepOp st op).stats.l2_misses = st.stats.l2_misses := by
  cases op with
  | get key now =>
    simp only [stepOp, cacheGet]
    cases h : st.l1.find? (fun p => p.1 == key) with
    | none => simp
    | some p =>
      by_cases he : p.2.is_expired now
      · simp [he]
      · simp [he]
  | set key value ttl now => simp [stepOp, cacheSet]
  | invalidate key => simp [stepOp, cacheInvalidate]
  | clear => simp [stepOp, cacheClear]
  | stats => simp [stepOp]

/-- A single cache operation preserves the capacity field. -/
theorem stepOp_capacity_fixed (st : CacheState) (op : CacheOp) :
    (stepOp st op).l1_capacity = st.l1_capacity := by
  cases op with
  | get key now =>
    simp only [stepOp, cacheGet]
    cases h : st.l1.find? (fun p => p.1 == key) with
    | none => simp
    | some p =>
      by_cases he : p.2.is_expired now
      · simp [he]
      · simp [he]
  | set key value ttl now => simp [stepOp, cacheSet]
  | invalidate key => simp [stepOp, cacheInvalidate]
  | clear => simp [stepOp, cacheClear]
  | stats => simp [stepOp]

/-- Hit and miss counters are monotone across any operation sequence. -/
theorem runOps_counters_mono (ops : List CacheOp) :
    ∀ st : CacheState,
      st.stats.l1_hits ≤ (runOps st ops).stats.l1_hits ∧
      st.stats.l1_misses ≤ (runOps st ops).stats.l1_misses := by
  induction ops with
  | nil => intro st; exact ⟨le_rfl, le_rfl⟩
  | cons op rest ih =>
    intro st
    have h1 := stepOp_counters_mono st op
    have h2 := ih (stepOp st op)
    simp only [runOps, List.foldl_cons] at h2 ⊢
    exact ⟨le_trans h1.1 h2.1, le_trans h1.2 h2.2⟩

/-- The l2 counters stay fixed across any operation sequence. -/
theorem runOps_l2_fixed (ops : List CacheOp) :
    ∀ st : CacheState,
      (runOps st ops).stats.l2_hits = st.stats.l2_hits ∧
      (runOps st ops).stats.l2_misses = st.stats.l2_misses := by
  induction ops with
  | nil => intro st; exact ⟨rfl, rfl⟩
  | cons op rest ih =>
    intro st
    have h1 := stepOp_l2_fixed st op
    have h2 := ih (stepOp st op)
    simp only [runOps, List.foldl_cons] at h2 ⊢
    exact ⟨h2.1.trans h1.1, h2.2.trans h1.2⟩

end Rasn

namespace Rasn

/-- When the capacity is positive, an lru put leaves the new entry at the
most-recent position: capacity-driven eviction only ever removes the
least-recently-used (last) entry. -/
theorem lruPut_head (l : List (String × CachedValue)) (k : String)
    (v : CachedValue) (cap : Nat) (hcap : 0 < cap) :
    ∃ rest, lruPut l k v cap = (k, v) :: rest := by
  simp only [lruPut]
  by_cases h : ((k, v) :: l.filter (fun p => p.1 != k)).length > cap
  · rw [if_pos h]
    cases hf : l.filter (fun p => p.1 != k) with
    | nil =>
      rw [hf] at h
      simp at h
      omega
    | cons a as =>
      exact ⟨(a :: as).dropLast, rfl⟩
  · rw [if_neg h]
    exact ⟨_, rfl⟩

/-- After a set on a positive-capacity cache, the key sits at the head of
the recency list with expiry now + ttl. -/
theorem cacheSet_head (st : CacheState) (k : String) (v : AsnInfo)
    (ttl now : Nat) (hcap : 0 < st.l1_capacity) :
    ∃ rest, (cacheSet st k v ttl now).l1
      = (k, CachedValue.mk_new v ttl now) :: rest := by
  obtain ⟨rest, hrest⟩ :=
    lruPut_head st.l1 k (CachedValue.mk_new v ttl now) st.l1_capacity hcap
  exact ⟨rest, hrest⟩

end Rasn

namespace Rasn

/-- C9: the hits and misses counters of the cache never decrease across
any sequence of cache operations (get, set, invalidate, clear, stats);
clear removes all entries and resets the size statistic to zero but
leaves both counters unchanged. -/
theorem cache_counters_monotone (st : CacheState) (ops : List CacheOp) :
    (st.stats.l1_hits ≤ (runOps st ops).stats.l1_hits ∧
     st.stats.l1_misses ≤ (runOps st ops).stats.l1_misses) ∧
    ((cacheClear st).l1 = [] ∧
     (cacheClear st).stats.l1_size = 0 ∧
     (cacheClear st).stats.l1_hits = st.stats.l1_hits ∧
     (cacheClear st).stats.l1_misses = st.stats.l1_misses) := by
  refine ⟨runOps_counters_mono ops st, rfl, rfl, rfl, rfl⟩

/-- C4: setting a key with a ttl and reading it back at the same instant
returns the value; reading it strictly later than now + ttl removes the
entry from the cache, records a miss, and returns none.  The capacity
hypothesis holds for every cache built by `cacheNew`. -/
theorem cache_ttl_roundtrip (st : CacheState) (k : String) (v : AsnInfo)
    (ttl now later : Nat) (hcap : 0 < st.l1_capacity) (httl : 0 < ttl)
    (hlate : now + ttl < later) :
    (cacheGet (cacheSet st k v ttl now) k now).1 = some v ∧
    (cacheGet (cacheSet st k v ttl now) k later).1 = none ∧
    (∀ p ∈ (cacheGet (cacheSet st k v ttl now) k later).2.l1, p.1 ≠ k) ∧
    (cacheGet (cacheSet st k v ttl now) k later).2.stats.l1_misses
      = (cacheSet st k v ttl now).stats.l1_misses + 1 := by
  obtain ⟨rest, hl1⟩ := cacheSet_head st k v ttl now hcap
  have hfind : (cacheSet st k v ttl now).l1.find? (fun p => p.1 == k)
      = some (k, CachedValue.mk_new v ttl now) := by
    rw [hl1]
    simp [List.find?]
  have hfresh : ({ data := v, expires_at := now + ttl } : CachedValue).is_expired now = false := by
    simp only [CachedValue.is_expired, gt_iff_lt, decide_eq_false_iff_not,
      not_lt]
    omega
  have hexp : ({ data := v, expires_at := now + ttl } : CachedValue).is_expired later = true := by
    simp only [CachedValue.is_expired, gt_iff_lt, decide_eq_true_eq]
    omega
  refine ⟨?_, ?_, ?_, ?_⟩
  · simp [cacheGet, hfind, CachedValue.mk_new, hfresh]
  · simp [cacheGet, hfind, CachedValue.mk_new, hexp]
  · intro p hp
    simp only [cacheGet, hfind, CachedValue.mk_new, hexp, if_true] at hp
    simp only [lruPop, List.mem_filter, bne_iff_ne, ne_eq,
      decide_eq_true_eq] at hp
    exact hp.2
  · simp [cacheGet, hfind, CachedValue.mk_new, hexp]

/-- Witness for C4 at the concrete inputs of the rasn-cache TTL test. -/
theorem cache_ttl_roundtrip_witness :
    (cacheGet (cacheSet testCache "8.8.8.8" testInfo 60 0) "8.8.8.8" 0).1
      = some testInfo ∧
    (cacheGet (cacheSet testCache "8.8.8.8" testInfo 60 0) "8.8.8.8" 61).1
      = none ∧
    (cacheGet (cacheSet testCache "8.8.8.8" testInfo 60 0) "8.8.8.8" 61).2.stats.l1_misses
      = (cacheSet testCache "8.8.8.8" testInfo 60 0).stats.l1_misses + 1 :=
  ⟨(cache_ttl_roundtrip testCache "8.8.8.8" testInfo 60 0 61 (by decide)
      (by decide) (by decide)).1,
   (cache_ttl_roundtrip testCache "8.8.8.8" testInfo 60 0 61 (by decide)
      (by decide) (by decide)).2.1,
   (cache_ttl_roundtrip testCache "8.8.8.8" testInfo 60 0 61 (by decide)
      (by decide) (by decide)).2.2.2⟩

end Rasn

namespace Rasn

/-- For a snapshot whose l2 counters are zero (every snapshot the engine
can produce), hit_rate is the l1 ratio expressed as a percentage, and
agrees with l1_hit_rate. -/
theorem hit_rate_of_l2_zero (s : CacheStats) (hh : s.l2_hits = 0)
    (hm : s.l2_misses = 0) :
    (s.l1_hits = 0 → s.l1_misses = 0 → s.hit_rate = 0) ∧
    (0 < s.l1_hits + s.l1_misses →
       s.hit_rate = ((s.l1_hits : ℚ) / ((s.l1_hits : ℚ) + (s.l1_misses : ℚ)))
         * 100) ∧
    s.hit_rate = s.l1_hit_rate := by
  unfold CacheStats.hit_rate CacheStats.l1_hit_rate
  rw [hh, hm]
  refine ⟨?_, ?_, ?_⟩
  · intro h1 h2
    rw [h1, h2]
    norm_num
  · intro hpos
    rw [if_neg (by omega)]
    push_cast
    ring_nf
  · by_cases h : s.l1_hits + s.l1_misses = 0
    · rw [if_pos (by omega), if_pos h]
    · rw [if_neg (by omega), if_neg h]
      push_cast
      ring_nf

/-- The construction result of `cacheNew` has zeroed statistics. -/
theorem cacheNew_ok (cap : Nat) (st0 : CacheState)
    (h0 : cacheNew cap = Except.ok st0) :
    st0.stats.l2_hits = 0 ∧ st0.stats.l2_misses = 0 ∧
    st0.stats.l1_hits = 0 ∧ st0.stats.l1_misses = 0 ∧
    st0.l1 = [] ∧ st0.l1_capacity = cap ∧ 0 < cap := by
  unfold cacheNew at h0
  by_cases hc : cap = 0
  · rw [if_pos hc] at h0
    exact absurd h0 (by simp)
  · rw [if_neg hc] at h0
    have := Except.ok.inj h0
    subst this
    refine ⟨rfl, rfl, rfl, rfl, rfl, rfl, by omega⟩

/-- C6 (amended): for every snapshot taken after running any operation
sequence on a freshly constructed cache, the reported hit rate is the
ratio h/(h+m) of recorded hits to recorded requests expressed as a
percentage, 100*h/(h+m), and is 0 when both counters are zero; the
overall rate coincides with the l1 rate because no code path ever
touches the l2 counters. -/
theorem cache_hit_rate_formula (cap : Nat) (st0 : CacheState)
    (ops : List CacheOp) (h0 : cacheNew cap = Except.ok st0) :
    ((runOps st0 ops).stats.l1_hits = 0 →
       (runOps st0 ops).stats.l1_misses = 0 →
       (runOps st0 ops).stats.hit_rate = 0) ∧
    (0 < (runOps st0 ops).stats.l1_hits + (runOps st0 ops).stats.l1_misses →
       (runOps st0 ops).stats.hit_rate
         = (((runOps st0 ops).stats.l1_hits : ℚ)
             / (((runOps st0 ops).stats.l1_hits : ℚ)
                + ((runOps st0 ops).stats.l1_misses : ℚ))) * 100) ∧
    (runOps st0 ops).stats.hit_rate = (runOps st0 ops).stats.l1_hit_rate := by
  obtain ⟨hh, hm, -⟩ := cacheNew_ok cap st0 h0
  have hfix := runOps_l2_fixed ops st0
  exact hit_rate_of_l2_zero (runOps st0 ops).stats (hfix.1.trans hh)
    (hfix.2.trans hm)

/-- Witness for C6 at a concrete input: a fresh cache with no requests
reports a hit rate of 0. -/
theorem cache_hit_rate_formula_witness :
    (runOps cache100 []).stats.hit_rate = 0 :=
  (cache_hit_rate_formula 100 cache100 [] rfl).1 rfl rfl

/-- C6 counterexample: after one recorded hit and one recorded miss (the
scenario of rasn-cache test_cache_stats) the source reports 50, a
percentage, not the ratio 1/(1+1) that the claim states. -/
theorem cache_hit_rate_counterexample :
    (runOps cache100 [CacheOp.set "8.8.8.8" testInfo 60 0,
        CacheOp.get "8.8.8.8" 0, CacheOp.get "1.1.1.1" 0]).stats.l1_hits = 1 ∧
    (runOps cache100 [CacheOp.set "8.8.8.8" testInfo 60 0,
        CacheOp.get "8.8.8.8" 0, CacheOp.get "1.1.1.1" 0]).stats.l1_misses = 1 ∧
    (runOps cache100 [CacheOp.set "8.8.8.8" testInfo 60 0,
        CacheOp.get "8.8.8.8" 0, CacheOp.get "1.1.1.1" 0]).stats.hit_rate
      ≠ 1 / (1 + 1) := by
  have hs : (runOps cache100 [CacheOp.set "8.8.8.8" testInfo 60 0,
      CacheOp.get "8.8.8.8" 0, CacheOp.get "1.1.1.1" 0]).stats
      = { l1_hits := 1, l1_misses := 1, l2_hits := 0, l2_misses := 0
          l1_size := 1, l1_capacity := 100 } := by decide
  refine ⟨by rw [hs], by rw [hs], ?_⟩
  rw [hs]
  unfold CacheStats.hit_rate
  norm_num

end Rasn

namespace Rasn

/-- Discriminator: is the read result any error at all. -/
def isStorageErr (r : Except StorageError (Option AsnInfo)) : Bool :=
  match r with
  | .error _ => true
  | .ok _ => false

/-- Discriminator: is the read result specifically an InvalidData error. -/
def isInvalidDataErr (r : Except StorageError (Option AsnInfo)) : Bool :=
  match r with
  | .error (.InvalidData _) => true
  | _ => false

/-- A cold store whose metadata record for asn 5 holds malformed bytes (a
JSON string where the AsnInfo object is expected). -/
def corruptCold : ColdStorage :=
  { ip_ranges := [], asn_metadata := [(5, Json.str "garbage")] }

/-- C7 (amended): a malformed stored metadata record surfaces on read as
an error - get_asn_info propagates the deserialization failure as
StorageError.SerializationError (through the From conversion for
serde_json errors), never silently skipping the entry. -/
theorem get_asn_info_corrupt (db : ColdStorage) (a : Nat) (j : Json)
    (e : String) (hread : getKey db.asn_metadata a = some j)
    (hdec : decodeAsnInfo j = Except.error e) :
    db.get_asn_info a = Except.error (StorageError.SerializationError e) := by
  unfold ColdStorage.get_asn_info
  rw [hread]
  simp only [hdec]

/-- Witness for C7 on the concrete corrupt store. -/
theorem get_asn_info_corrupt_witness :
    corruptCold.get_asn_info 5
      = Except.error (StorageError.SerializationError
          "invalid type: expected struct AsnInfo") :=
  get_asn_info_corrupt corruptCold 5 (Json.str "garbage")
    "invalid type: expected struct AsnInfo" rfl rfl

/-- C7 counterexample: the error produced for a corrupt metadata record
is not the InvalidData variant the claim names - it is an error (the
entry is not skipped), but the SerializationError variant. -/
theorem get_asn_info_corrupt_variant :
    isStorageErr (corruptCold.get_asn_info 5) = true ∧
    isInvalidDataErr (corruptCold.get_asn_info 5) = false := by
  refine ⟨rfl, rfl⟩

end Rasn

namespace Rasn

/-- The backward scan misses when no visited range contains the
address. -/
theorem findIpScan_none (ip : Nat) :
    ∀ l : List (Nat × Nat × Nat), (∀ r ∈ l, ¬(r.1 ≤ ip ∧ ip ≤ r.2.1)) →
    findIpScan l ip = none := by
  intro l
  induction l with
  | nil => intro _; rfl
  | cons r rest ih =>
    intro h
    obtain ⟨s, e, a⟩ := r
    have hr := h (s, e, a) (List.mem_cons_self _ _)
    unfold findIpScan
    rw [if_neg (fun hc => hr ⟨hc.1, hc.2⟩)]
    by_cases h2 : ip < s
    · rw [if_pos h2]
    · rw [if_neg h2]
      exact ih (fun q hq => h q (List.mem_cons_of_mem _ hq))

/-- The backward scan hits: if every visited key is at most ip, some
visited range (s, e, a) contains ip, and no other visited range contains
ip, the scan returns a. -/
theorem findIpScan_mem (ip s e a : Nat) :
    ∀ l : List (Nat × Nat × Nat), (s, e, a) ∈ l →
    (∀ r ∈ l, r.1 ≤ ip) →
    (∀ r ∈ l, r ≠ (s, e, a) → ¬(r.1 ≤ ip ∧ ip ≤ r.2.1)) →
    s ≤ ip → ip ≤ e → findIpScan l ip = some a := by
  intro l
  induction l with
  | nil => intro h; exact absurd h (List.not_mem_nil _)
  | cons r rest ih =>
    intro hmem hkeys hother hs he
    obtain ⟨s0, e0, a0⟩ := r
    unfold findIpScan
    by_cases heq : (s0, e0, a0) = (s, e, a)
    · obtain ⟨rfl, rfl, rfl⟩ : s0 = s ∧ e0 = e ∧ a0 = a := by
        simpa [Prod.ext_iff] using heq
      rw [if_pos ⟨hs, he⟩]
    · have hne := hother (s0, e0, a0) (List.mem_cons_self _ _) heq
      rw [if_neg (fun hc => hne ⟨hc.1, hc.2⟩)]
      have hk : s0 ≤ ip := hkeys (s0, e0, a0) (List.mem_cons_self _ _)
      rw [if_neg (by omega : ¬ ip < s0)]
      refine ih ?_ ?_ ?_ hs he
      · rcases List.mem_cons.mp hmem with h | h
        · exact absurd h.symm heq
        · exact h
      · exact fun q hq => hkeys q (List.mem_cons_of_mem _ hq)
      · exact fun q hq => hother q (List.mem_cons_of_mem _ hq)

/-- Whatever was inserted is present afterwards. -/
theorem putKey_self_mem {α : Type} (k : Nat) (v : α) :
    ∀ l : List (Nat × α), (k, v) ∈ putKey l k v := by
  intro l
  induction l with
  | nil => simp [putKey]
  | cons p rest ih =>
    obtain ⟨k0, v0⟩ := p
    unfold putKey
    by_cases h1 : k < k0
    · rw [if_pos h1]
      exact List.mem_cons_self _ _
    · rw [if_neg h1]
      by_cases h2 : k = k0
      · rw [if_pos h2]
        exact List.mem_cons_self _ _
      · rw [if_neg h2]
        exact List.mem_cons_of_mem _ ih

/-- Disjointness of interval ranges is a symmetric relation. -/
theorem rangeRel_symm :
    Symmetric (fun r r2 : Nat × Nat × Nat => r.2.1 < r2.1 ∨ r2.2.1 < r.1) := by
  intro p q h
  rcases h with h | h
  · exact Or.inr h
  · exact Or.inl h

/-- C5: after put_range(s, e, a) with s <= e into a store whose resulting
range set is pairwise non-overlapping, find returns Some a on every
address of [s, e], and Ok None on every address contained in no stored
range. -/
theorem cold_store_roundtrip (db : ColdStorage) (s e a : Nat) (hse : s ≤ e)
    (hdisj : rangesDisjoint (db.put_ip_range s e a).ip_ranges) :
    (∀ x, s ≤ x → x ≤ e →
       (db.put_ip_range s e a).find_ip x = Except.ok (some a)) ∧
    (∀ x, (∀ r ∈ (db.put_ip_range s e a).ip_ranges, ¬(r.1 ≤ x ∧ x ≤ r.2.1)) →
       (db.put_ip_range s e a).find_ip x = Except.ok none) := by
  have hsa : (s, e, a) ∈ (db.put_ip_range s e a).ip_ranges :=
    putKey_self_mem s (e, a) db.ip_ranges
  constructor
  · intro x hsx hxe
    unfold ColdStorage.find_ip
    congr 1
    apply findIpScan_mem x s e a
    · rw [List.mem_reverse, List.mem_filter]
      exact ⟨hsa, by simpa using hsx⟩
    · intro r hr
      rw [List.mem_reverse, List.mem_filter] at hr
      simpa using hr.2
    · intro r hr hne
      rw [List.mem_reverse, List.mem_filter] at hr
      have hrel := List.Pairwise.forall rangeRel_symm hdisj hr.1 hsa hne
      have hrel2 : r.2.1 < s ∨ e < r.1 := by simpa using hrel
      intro hc
      rcases hrel2 with h | h
      · omega
      · omega
    · exact hsx
    · exact hxe
  · intro x hnone
    unfold ColdStorage.find_ip
    congr 1
    apply findIpScan_none
    intro r hr
    rw [List.mem_reverse, List.mem_filter] at hr
    exact hnone r hr.1

/-- Witness for C5 on a concrete store: the range [100, 200] with asn 7
answers 150 and misses 250. -/
theorem cold_store_roundtrip_witness :
    (emptyCold.put_ip_range 100 200 7).find_ip 150 = Except.ok (some 7) ∧
    (emptyCold.put_ip_range 100 200 7).find_ip 250 = Except.ok none :=
  ⟨(cold_store_roundtrip emptyCold 100 200 7 (by decide) (by decide)).1 150
      (by decide) (by decide),
   (cold_store_roundtrip emptyCold 100 200 7 (by decide) (by decide)).2 250
      (by decide)⟩

end Rasn

namespace Rasn

/-- When no row of the table contains ip, the search loop reports no
match, regardless of ordering assumptions. -/
theorem binarySearchLoop_none (t : IpRangeTableV4) (ip : Nat)
    (hmiss : ∀ i, i < t.len →
      ¬(t.start_ips.getD i 0 ≤ ip ∧ ip ≤ t.end_ips.getD i 0)) :
    ∀ fuel left right, right ≤ t.len →
      binarySearchLoop t ip fuel left right = none := by
  intro fuel
  induction fuel with
  | zero => intro left right _; rfl
  | succ fuel ih =>
    intro left right hr
    simp only [binarySearchLoop]
    by_cases hlr : left < right
    · rw [if_pos hlr]
      have hmlt : left + (right - left) / 2 < right := by omega
      have h := hmiss (left + (right - left) / 2) (by omega)
      by_cases h1 : ip < t.start_ips.getD (left + (right - left) / 2) 0
      · rw [if_pos h1]
        exact ih left (left + (right - left) / 2) (by omega)
      · rw [if_neg h1]
        have h2 : ip > t.end_ips.getD (left + (right - left) / 2) 0 := by
          by_contra hc
          push_neg at hc
          exact h ⟨by omega, hc⟩
        rw [if_pos h2]
        exact ih (left + (right - left) / 2 + 1) right hr
    · rw [if_neg hlr]

/-- C3 (amended): a miss is the valid empty result at the Hot Table tier
(find_ip returns none) and at the Cold Store tier (find_ip returns
Ok(None), not an error); the composed resolver handle_lookup_ip, however,
answers a miss of every tier with Err(InternalError("No ASN found"))
rather than an empty result. -/
theorem miss_is_none_per_tier :
    (∀ (t : IpRangeTableV4) (ip : Nat),
       (∀ i, i < t.len →
          ¬(t.start_ips.getD i 0 ≤ ip ∧ ip ≤ t.end_ips.getD i 0)) →
       t.find_ip ip = none) ∧
    (∀ (db : ColdStorage) (ip : Nat),
       (∀ r ∈ db.ip_ranges, ¬(r.1 ≤ ip ∧ ip ≤ r.2.1)) →
       db.find_ip ip = Except.ok none) ∧
    (∀ (srv : McpServer) (ip : String) (n now : Nat),
       (cacheGet srv.cache ip now).1 = none → parse_ip ip = Except.ok n →
       (∀ t, srv.arrow_table = some t → t.find_ip n = none) →
       (handle_lookup_ip srv ip now).1
         = Except.error (McpError.InternalError "No ASN found")) := by
  refine ⟨?_, ?_, ?_⟩
  · intro t ip hmiss
    have hb : t.binary_search ip = none :=
      binarySearchLoop_none t ip hmiss t.len 0 t.len le_rfl
    simp [IpRangeTableV4.find_ip, hb]
  · intro db ip hmiss
    unfold ColdStorage.find_ip
    congr 1
    apply findIpScan_none
    intro r hr
    rw [List.mem_reverse, List.mem_filter] at hr
    exact hmiss r hr.1
  · intro srv ip n now hc hparse htab
    rcases hget : cacheGet srv.cache ip now with ⟨r, c1⟩
    rw [hget] at hc
    simp only at hc
    subst hc
    unfold handle_lookup_ip
    rw [hget, hparse]
    cases htabv : srv.arrow_table with
    | none => rfl
    | some t =>
      have := htab t htabv
      simp [this]

/-- Witness for C3 at concrete inputs: the empty table and the empty cold
store miss with none, and the composed resolver turns a full miss of
1.2.3.4 against the three-range test table into an internal error. -/
theorem miss_is_none_per_tier_witness :
    emptyTable.find_ip 5 = none ∧
    emptyCold.find_ip 5 = Except.ok none ∧
    (handle_lookup_ip { arrow_table := some testTable, cache := testCache }
        "1.2.3.4" 0).1
      = Except.error (McpError.InternalError "No ASN found") :=
  ⟨miss_is_none_per_tier.1 emptyTable 5
      (by intro i hi; simp [emptyTable] at hi),
   miss_is_none_per_tier.2.1 emptyCold 5 (by decide),
   miss_is_none_per_tier.2.2
     { arrow_table := some testTable, cache := testCache } "1.2.3.4" 16909060 0
     (by decide) (by decide)
     (by intro t ht; cases ht; decide)⟩

/-- C3 counterexample: an address matched by no stored range makes the
composed resolver return an error value, not the empty result the claim
requires at every tier including the composition. -/
theorem resolver_miss_is_error :
    testTable.find_ip 16909060 = none ∧
    (handle_lookup_ip { arrow_table := some testTable, cache := testCache }
        "1.2.3.4" 0).1
      = Except.error (McpError.InternalError "No ASN found") := by
  exact ⟨by decide, by decide⟩

end Rasn

namespace Rasn

/-- A cold store holding the range [10, 20] -> asn 5 and the metadata
record for asn 5, used to exhibit that the resolver never consults the
cold tier. -/
def coldC2 : ColdStorage :=
  (emptyCold.put_asn_info
    { asn := ⟨5⟩, organization := "ColdOrg", country := some "FR"
      description := none }).put_ip_range 10 20 5

/-- C2 (amended): the composed resolver tries only Cache then Hot Table.
A cache hit is returned at once; a cache miss followed by a hot-table hit
is cached for 300 seconds and returned; when the cache misses and the hot
table has no containing range the resolver returns
Err(InternalError("No ASN found")) - no Cold Store is part of the
composition, so no cold result is ever fetched or cached. -/
theorem resolver_composition (srv : McpServer) (ip : String) (now : Nat) :
    (∀ info c1, cacheGet srv.cache ip now = (some info, c1) →
       handle_lookup_ip srv ip now
         = (Except.ok info, { srv with cache := c1 })) ∧
    (∀ c1 n t info, cacheGet srv.cache ip now = (none, c1) →
       parse_ip ip = Except.ok n → srv.arrow_table = some t →
       t.find_ip n = some info →
       handle_lookup_ip srv ip now
         = (Except.ok info,
            { srv with cache := cacheSet c1 ip info 300 now })) ∧
    (∀ c1 n, cacheGet srv.cache ip now = (none, c1) →
       parse_ip ip = Except.ok n →
       (∀ t, srv.arrow_table = some t → t.find_ip n = none) →
       handle_lookup_ip srv ip now
         = (Except.error (McpError.InternalError "No ASN found"),
            { srv with cache := c1 })) := by
  refine ⟨?_, ?_, ?_⟩
  · intro info c1 hget
    unfold handle_lookup_ip
    rw [hget]
  · intro c1 n t info hget hparse htab hfind
    unfold handle_lookup_ip
    rw [hget, hparse, htab]
    simp [hfind]
  · intro c1 n hget hparse htab
    unfold handle_lookup_ip
    rw [hget, hparse]
    cases htabv : srv.arrow_table with
    | none => rfl
    | some t =>
      have := htab t htabv
      simp [this]

/-- Witness for C2 on concrete inputs: a cache miss followed by a
hot-table hit on 0.0.0.125 returns the row and writes it into the cache
under the raw ip string with ttl 300. -/
theorem resolver_composition_witness :
    handle_lookup_ip { arrow_table := some testTable, cache := testCache }
        "0.0.0.125" 0
      = (Except.ok { asn := ⟨1⟩, organization := "Org1", country := some "US"
                     description := none },
         { arrow_table := some testTable
           cache := cacheSet (cacheGet testCache "0.0.0.125" 0).2 "0.0.0.125"
             { asn := ⟨1⟩, organization := "Org1", country := some "US"
               description := none } 300 0 }) :=
  (resolver_composition
      { arrow_table := some testTable, cache := testCache } "0.0.0.125" 0).2.1
    (cacheGet testCache "0.0.0.125" 0).2 125 testTable
    { asn := ⟨1⟩, organization := "Org1", country := some "US"
      description := none }
    (by decide) (by decide) rfl (by decide)

/-- C2 counterexample: with an empty cache, an empty hot table, and a
cold store that contains a range holding 0.0.0.15 together with its
metadata, the claim demands that the resolver return the cold AsnInfo;
the code instead returns Err(InternalError("No ASN found")) - the cold
tier is never queried. -/
theorem resolver_skips_cold_store :
    coldC2.find_ip 15 = Except.ok (some 5) ∧
    coldC2.get_asn_info 5
      = Except.ok (some { asn := ⟨5⟩, organization := "ColdOrg"
                          country := some "FR", description := none }) ∧
    (cacheGet testCache "0.0.0.15" 0).1 = none ∧
    emptyTable.find_ip 15 = none ∧
    (handle_lookup_ip { arrow_table := some emptyTable, cache := testCache }
        "0.0.0.15" 0).1
      = Except.error (McpError.InternalError "No ASN found") := by
  exact ⟨by decide, by decide, by decide, by decide, by decide⟩

end Rasn

namespace Rasn

/-- A set of a fresh key on a cache with spare room prepends the entry
and evicts nothing. -/
theorem cacheSet_fresh (st : CacheState) (k : String) (v : AsnInfo)
    (ttl now : Nat) (hfresh : ∀ p ∈ st.l1, p.1 ≠ k)
    (hlen : st.l1.length < st.l1_capacity) :
    (cacheSet st k v ttl now).l1
      = (k, CachedValue.mk_new v ttl now) :: st.l1 := by
  have hfilter : st.l1.filter (fun p => p.1 != k) = st.l1 :=
    List.filter_eq_self.mpr (fun p hp => by simpa using hfresh p hp)
  simp only [cacheSet, lruPut, hfilter]
  rw [if_neg (by simp only [List.length_cons]; omega)]

/-- Folding fresh distinct keys into a cache with enough spare room
stacks them in recency order on top of the existing entries, without
touching the capacity. -/
theorem setAll_keys (v : AsnInfo) (ttl now : Nat) :
    ∀ (ks : List String) (st : CacheState), ks.Nodup →
    (∀ k ∈ ks, ∀ p ∈ st.l1, p.1 ≠ k) →
    st.l1.length + ks.length ≤ st.l1_capacity →
    (runOps st (ks.map (fun k => CacheOp.set k v ttl now))).l1
      = ks.reverse.map (fun k => (k, CachedValue.mk_new v ttl now)) ++ st.l1
    ∧ (runOps st (ks.map (fun k => CacheOp.set k v ttl now))).l1_capacity
      = st.l1_capacity := by
  intro ks
  induction ks with
  | nil => intro st _ _ _; exact ⟨rfl, rfl⟩
  | cons k ks ih =>
    intro st hnd hfresh hlen
    have hknotin : k ∉ ks := (List.nodup_cons.mp hnd).1
    have hset : (cacheSet st k v ttl now).l1
        = (k, CachedValue.mk_new v ttl now) :: st.l1 :=
      cacheSet_fresh st k v ttl now (hfresh k (List.mem_cons_self _ _))
        (by simp only [List.length_cons] at hlen; omega)
    have hcap : (cacheSet st k v ttl now).l1_capacity = st.l1_capacity := rfl
    have hfresh2 : ∀ k2 ∈ ks, ∀ p ∈ (cacheSet st k v ttl now).l1, p.1 ≠ k2 := by
      intro k2 hk2 p hp
      rw [hset] at hp
      rcases List.mem_cons.mp hp with rfl | hmem
      · intro hc
        simp only at hc
        exact hknotin (hc ▸ hk2)
      · exact hfresh k2 (List.mem_cons_of_mem _ hk2) p hmem
    have hlen2 : (cacheSet st k v ttl now).l1.length + ks.length
        ≤ (cacheSet st k v ttl now).l1_capacity := by
      rw [hset, hcap]
      simp only [List.length_cons] at hlen ⊢
      omega
    obtain ⟨ih1, ih2⟩ :=
      ih (cacheSet st k v ttl now) (List.nodup_cons.mp hnd).2 hfresh2 hlen2
    have hstep : runOps st ((k :: ks).map (fun k2 => CacheOp.set k2 v ttl now))
        = runOps (cacheSet st k v ttl now)
            (ks.map (fun k2 => CacheOp.set k2 v ttl now)) := rfl
    constructor
    · rw [hstep, ih1, hset]
      simp [List.reverse_cons, List.map_append]
    · rw [hstep, ih2, hcap]

/-- Lookup in a recency list whose entries all carry the same cached
value: a present key is found with that value. -/
theorem find?_entry_mem (e : CachedValue) :
    ∀ (km : List String) (k : String), k ∈ km →
    (km.map (fun k2 => (k2, e))).find? (fun p => p.1 == k) = some (k, e) := by
  intro km
  induction km with
  | nil => intro k h; exact absurd h (List.not_mem_nil _)
  | cons k1 rest ih =>
    intro k hk
    by_cases h : k1 = k
    · subst h
      simp [List.find?]
    · rcases List.mem_cons.mp hk with rfl | hmem
      · exact absurd rfl h
      · simp only [List.map_cons, List.find?]
        rw [show ((k1, e).1 == k) = false by simpa using h]
        exact ih k hmem

/-- Lookup in a recency list whose entries all carry the same cached
value: an absent key is not found. -/
theorem find?_entry_not_mem (e : CachedValue) (km : List String) (k : String)
    (hk : k ∉ km) :
    (km.map (fun k2 => (k2, e))).find? (fun p => p.1 == k) = none := by
  rw [List.find?_eq_none]
  intro p hp
  rw [List.mem_map] at hp
  obtain ⟨k2, hk2, rfl⟩ := hp
  simp only [beq_eq_false_iff_ne, ne_eq, beq_iff_eq]
  intro hc
  exact hk (hc ▸ hk2)

end Rasn

namespace Rasn

/-- Dropping the last element of a reversal drops the original head. -/
theorem reverse_dropLast_eq {α : Type} (l : List α) :
    l.reverse.dropLast = (l.drop 1).reverse := by
  cases l with
  | nil => rfl
  | cons a as => simp [List.dropLast_concat]

/-- dropLast of a cons with nonempty tail keeps the head. -/
theorem dropLast_cons_ne {α : Type} (a : α) (l : List α) (h : l ≠ []) :
    (a :: l).dropLast = a :: l.dropLast := by
  cases l with
  | nil => exact absurd rfl h
  | cons b bs => rfl

/-- C8: filling a freshly constructed cache of capacity c with c + 1
distinct keys evicts exactly the first (least recently used) key: the
surviving recency list holds precisely the other keys, each of which is
still retrievable, while the first key now misses. -/
theorem lru_eviction (c : Nat) (st0 : CacheState)
    (h0 : cacheNew c = Except.ok st0) (ks : List String) (k0 : String)
    (hhead : ks.head? = some k0) (hlen : ks.length = c + 1)
    (hnd : ks.Nodup) (v : AsnInfo) (ttl now : Nat) :
    ((runOps st0 (ks.map (fun k2 => CacheOp.set k2 v ttl now))).l1.map
        Prod.fst = (ks.drop 1).reverse) ∧
    (∀ k ∈ ks.drop 1,
       (cacheGet (runOps st0 (ks.map (fun k2 => CacheOp.set k2 v ttl now))) k
           now).1 = some v) ∧
    (cacheGet (runOps st0 (ks.map (fun k2 => CacheOp.set k2 v ttl now))) k0
        now).1 = none := by
  obtain ⟨-, -, -, -, hl1, hcap, hcpos⟩ := cacheNew_ok c st0 h0
  rcases List.eq_nil_or_concat' ks with rfl | ⟨init, klast, rfl⟩
  · simp only [List.length_nil] at hlen
    omega
  have hinitlen : init.length = c := by
    simp only [List.length_append, List.length_singleton] at hlen
    omega
  have hinitne : init ≠ [] := by
    intro h
    rw [h] at hinitlen
    simp at hinitlen
    omega
  obtain ⟨hndinit, -, hdisj⟩ := List.nodup_append.mp hnd
  have hklast_notin : klast ∉ init :=
    fun h => hdisj h (List.mem_singleton.mpr rfl)
  have hfold := setAll_keys v ttl now init st0 hndinit
    (by rw [hl1]; intro k hk p hp; cases hp)
    (by rw [hl1, hcap]; simp [hinitlen])
  have hsplit : runOps st0
      ((init ++ [klast]).map (fun k2 => CacheOp.set k2 v ttl now))
      = cacheSet (runOps st0 (init.map (fun k2 => CacheOp.set k2 v ttl now)))
          klast v ttl now := by
    rw [List.map_append, runOps, List.foldl_append]
    rfl
  have hmidl1 : (runOps st0 (init.map (fun k2 => CacheOp.set k2 v ttl now))).l1
      = init.reverse.map (fun k2 => (k2, CachedValue.mk_new v ttl now)) := by
    rw [hfold.1, hl1, List.append_nil]
  have hmidcap :
      (runOps st0 (init.map (fun k2 => CacheOp.set k2 v ttl now))).l1_capacity
      = c := by
    rw [hfold.2, hcap]
  have hfilter :
      (runOps st0 (init.map (fun k2 => CacheOp.set k2 v ttl now))).l1.filter
        (fun p => p.1 != klast)
      = (runOps st0 (init.map (fun k2 => CacheOp.set k2 v ttl now))).l1 := by
    apply List.filter_eq_self.mpr
    intro p hp
    rw [hmidl1, List.mem_map] at hp
    obtain ⟨k2, hk2, rfl⟩ := hp
    have hne : k2 ≠ klast :=
      fun h => hklast_notin (h ▸ List.mem_reverse.mp hk2)
    simpa using hne
  have hlast : (runOps st0
      ((init ++ [klast]).map (fun k2 => CacheOp.set k2 v ttl now))).l1
      = (klast :: (init.drop 1).reverse).map
          (fun k2 => (k2, CachedValue.mk_new v ttl now)) := by
    rw [hsplit]
    simp only [cacheSet, lruPut, hfilter]
    rw [if_pos (by rw [List.length_cons, hmidl1, List.length_map,
          List.length_reverse, hinitlen, hmidcap]; omega)]
    rw [hmidl1]
    rw [dropLast_cons_ne _ _ (by simp [hinitne])]
    rw [List.map_cons]
    congr 1
    rw [← List.map_dropLast, reverse_dropLast_eq]
  have hdrop : (init ++ [klast]).drop 1 = init.drop 1 ++ [klast] := by
    cases init with
    | nil => exact absurd rfl hinitne
    | cons a as => rfl
  refine ⟨?_, ?_, ?_⟩
  · rw [hlast, List.map_map]
    rw [show (Prod.fst ∘ fun k2 => (k2, CachedValue.mk_new v ttl now))
          = id from rfl]
    rw [List.map_id, hdrop, List.reverse_append]
    simp
  · intro k hk
    have hkmem : k ∈ klast :: (init.drop 1).reverse := by
      rw [hdrop] at hk
      rcases List.mem_append.mp hk with h | h
      · exact List.mem_cons_of_mem _ (List.mem_reverse.mpr h)
      · rw [List.mem_singleton.mp h]
        exact List.mem_cons_self _ _
    have hfind := find?_entry_mem (CachedValue.mk_new v ttl now)
      (klast :: (init.drop 1).reverse) k hkmem
    have hnotexp : ¬ now > now + ttl := by omega
    simp only [cacheGet]
    rw [hlast, hfind]
    simp [CachedValue.mk_new, CachedValue.is_expired, hnotexp]
  · obtain ⟨a, itail, rfl⟩ : ∃ a itail, init = a :: itail := by
      cases init with
      | nil => exact absurd rfl hinitne
      | cons a itail => exact ⟨a, itail, rfl⟩
    have hk0 : a = k0 := by simpa using hhead
    subst hk0
    have hnotmem : a ∉ klast :: ((a :: itail).drop 1).reverse := by
      intro h
      rcases List.mem_cons.mp h with h | h
      · exact hklast_notin (h ▸ List.mem_cons_self _ _)
      · simp only [List.drop_one, List.tail_cons, List.mem_reverse] at h
        exact (List.nodup_cons.mp hndinit).1 h
    have hfind := find?_entry_not_mem (CachedValue.mk_new v ttl now)
      (klast :: ((a :: itail).drop 1).reverse) a hnotmem
    simp only [cacheGet]
    rw [hlast, hfind]

/-- Witness for C8 at the concrete scenario of the rasn-cache eviction
test: capacity 2, keys key1, key2, key3 inserted in order - key1 is
evicted, key2 and key3 are retained. -/
theorem lru_eviction_witness :
    ((runOps testCache
        (["key1", "key2", "key3"].map
          (fun k2 => CacheOp.set k2 testInfo 60 0))).l1.map Prod.fst
      = ["key3", "key2"]) ∧
    ((cacheGet (runOps testCache
        (["key1", "key2", "key3"].map
          (fun k2 => CacheOp.set k2 testInfo 60 0))) "key2" 0).1
      = some testInfo) ∧
    ((cacheGet (runOps testCache
        (["key1", "key2", "key3"].map
          (fun k2 => CacheOp.set k2 testInfo 60 0))) "key1" 0).1
      = none) :=
  ⟨(lru_eviction 2 testCache rfl ["key1", "key2", "key3"] "key1" rfl rfl
      (by decide) testInfo 60 0).1,
   (lru_eviction 2 testCache rfl ["key1", "key2", "key3"] "key1" rfl rfl
      (by decide) testInfo 60 0).2.1 "key2" (by decide),
   (lru_eviction 2 testCache rfl ["key1", "key2", "key3"] "key1" rfl rfl
      (by decide) testInfo 60 0).2.2⟩

end Rasn

namespace Rasn

/-- An Arrow UInt8-keyed dictionary string column: per-row dictionary
keys, a per-row null flag (Array::is_null), and the shared value
dictionary. -/
structure DictColumn where
  keys : List Nat
  nulls : List Bool
  values : List String

/-- `extract_string_column` (rasn-arrow lines 204-228): for each row of
the dictionary array, a null row yields the empty string, otherwise the
dictionary value at the row key.  The downcast checks of the source are
enforced by the model types; the panicking `StringArray::value` accessor
is modelled with `List.getD _ ""`. -/
def extract_string_column (c : DictColumn) : List String :=
  (List.range c.keys.length).map fun i =>
    if c.nulls.getD i false then "" else c.values.getD (c.keys.getD i 0) ""

/-- The pure core of `IpRangeTableV4::from_parquet` (rasn-arrow lines
92-136) after the parquet reader has produced the first record batch:
take the three u32 columns as is, extract the two dictionary string
columns, and cache the row count of the start column. -/
def fromBatch (starts ends asns : List Nat) (countryCol orgCol : DictColumn) :
    IpRangeTableV4 :=
  { start_ips := starts
    end_ips := ends
    asns := asns
    countries := extract_string_column countryCol
    orgs := extract_string_column orgCol
    len := starts.length }

/-- C10: every hot-table hit carries description = none and a present
country value; and when the underlying organization or country
dictionary column is null at the matched row, the corresponding field
of the returned AsnInfo is the empty string (for country: some ""),
rather than an absent value or an error. -/
theorem find_ip_hit_shape :
    (∀ (t : IpRangeTableV4) (ip : Nat) (info : AsnInfo),
       t.find_ip ip = some info →
       info.description = none ∧ info.country.isSome = true) ∧
    (∀ (starts ends asns : List Nat) (cc oc : DictColumn) (ip idx : Nat)
       (info : AsnInfo),
       (fromBatch starts ends asns cc oc).binary_search ip = some idx →
       (fromBatch starts ends asns cc oc).find_ip ip = some info →
       idx < oc.keys.length → oc.nulls.getD idx false = true →
       info.organization = "") ∧
    (∀ (starts ends asns : List Nat) (cc oc : DictColumn) (ip idx : Nat)
       (info : AsnInfo),
       (fromBatch starts ends asns cc oc).binary_search ip = some idx →
       (fromBatch starts ends asns cc oc).find_ip ip = some info →
       idx < cc.keys.length → cc.nulls.getD idx false = true →
       info.country = some "") := by
  refine ⟨?_, ?_, ?_⟩
  · intro t ip info hfind
    simp only [IpRangeTableV4.find_ip, Option.bind_eq_some,
      Option.map_eq_some'] at hfind
    obtain ⟨idx, -, org, -, c, -, rfl⟩ := hfind
    exact ⟨rfl, rfl⟩
  · intro starts ends asns cc oc ip idx info hsearch hfind hidx hnull
    have horg : (fromBatch starts ends asns cc oc).orgs.get? idx
        = some "" := by
      show (extract_string_column oc).get? idx = some ""
      unfold extract_string_column
      rw [List.get?_map, List.get?_range hidx]
      have hnull2 : oc.nulls[idx]?.getD false = true := by
        rw [← List.getD_eq_getElem?_getD]
        exact hnull
      simp [hnull2]
    simp only [IpRangeTableV4.find_ip, hsearch, Option.some_bind, horg,
      Option.bind_eq_some, Option.map_eq_some'] at hfind
    obtain ⟨c, -, rfl⟩ := hfind
    rfl
  · intro starts ends asns cc oc ip idx info hsearch hfind hidx hnull
    have hc : (fromBatch starts ends asns cc oc).countries.get? idx
        = some "" := by
      show (extract_string_column cc).get? idx = some ""
      unfold extract_string_column
      rw [List.get?_map, List.get?_range hidx]
      have hnull2 : cc.nulls[idx]?.getD false = true := by
        rw [← List.getD_eq_getElem?_getD]
        exact hnull
      simp [hnull2]
    simp only [IpRangeTableV4.find_ip, hsearch, Option.some_bind, hc,
      Option.bind_eq_some, Option.map_eq_some'] at hfind
    obtain ⟨org, -, a, ha, rfl⟩ := hfind
    obtain rfl : "" = a := Option.some.inj ha
    rfl

/-- Witness for C10: a hit on the test table has description none and a
present country; a one-row table whose dictionary columns are null at
the matched row yields empty-string organization and country some "". -/
theorem find_ip_hit_shape_witness :
    ((testTable.find_ip 125).get (by decide)
        |>.description) = none ∧
    (((fromBatch [100] [200] [7] ⟨[0], [true], ["US"]⟩
        ⟨[0], [true], ["OrgX"]⟩).find_ip 150).get (by decide)
        |>.organization) = "" ∧
    (((fromBatch [100] [200] [7] ⟨[0], [true], ["US"]⟩
        ⟨[0], [true], ["OrgX"]⟩).find_ip 150).get (by decide)
        |>.country) = some "" :=
  ⟨(find_ip_hit_shape.1 testTable 125
      ((testTable.find_ip 125).get (by decide)) (by decide)).1,
   find_ip_hit_shape.2.1 [100] [200] [7] ⟨[0], [true], ["US"]⟩
     ⟨[0], [true], ["OrgX"]⟩ 150 0
     (((fromBatch [100] [200] [7] ⟨[0], [true], ["US"]⟩
        ⟨[0], [true], ["OrgX"]⟩).find_ip 150).get (by decide))
     (by decide) (by decide) (by decide) (by decide),
   find_ip_hit_shape.2.2 [100] [200] [7] ⟨[0], [true], ["US"]⟩
     ⟨[0], [true], ["OrgX"]⟩ 150 0
     (((fromBatch [100] [200] [7] ⟨[0], [true], ["US"]⟩
        ⟨[0], [true], ["OrgX"]⟩).find_ip 150).get (by decide))
     (by decide) (by decide) (by decide) (by decide)⟩

end Rasn

namespace Rasn

/-- Sorted plus pairwise disjoint implies strict separation: an earlier
range ends before a later range starts. -/
theorem sortedDisjoint_sep (t : IpRangeTableV4) (hsd : t.sortedDisjoint) :
    ∀ i j, i < j → j < t.len →
      t.end_ips.getD i 0 < t.start_ips.getD j 0 := by
  intro i j hij hj
  have hi : i < t.len := lt_trans hij hj
  obtain ⟨hle, hsort, hdisj⟩ := hsd
  have h1 := hle j (List.mem_range.mpr hj)
  have h2 := hsort i (List.mem_range.mpr hi) j (List.mem_range.mpr hj) hij
  have h3 := hdisj i (List.mem_range.mpr hi) j (List.mem_range.mpr hj) hij
  rcases h3 with h | h
  · exact h
  · omega

/-- On a separated table the search loop finds the unique containing
index whenever it lies inside the current window and the fuel covers the
window width. -/
theorem binarySearchLoop_some (t : IpRangeTableV4) (ip i0 : Nat)
    (hle : ∀ i, i < t.len → t.start_ips.getD i 0 ≤ t.end_ips.getD i 0)
    (hsep : ∀ i j, i < j → j < t.len →
      t.end_ips.getD i 0 < t.start_ips.getD j 0)
    (hi0 : i0 < t.len)
    (hs : t.start_ips.getD i0 0 ≤ ip) (he : ip ≤ t.end_ips.getD i0 0) :
    ∀ fuel left right, right - left ≤ fuel → left ≤ i0 → i0 < right →
      right ≤ t.len →
      binarySearchLoop t ip fuel left right = some i0 := by
  intro fuel
  induction fuel with
  | zero => intro left right h1 h2 h3 h4; omega
  | succ fuel ih =>
    intro left right hf h2 h3 h4
    have hlr : left < right := by omega
    simp only [binarySearchLoop]
    rw [if_pos hlr]
    have hmlt : left + (right - left) / 2 < right := by omega
    have hmlen : left + (right - left) / 2 < t.len := by omega
    by_cases h1 : ip < t.start_ips.getD (left + (right - left) / 2) 0
    · rw [if_pos h1]
      have hi0mid : i0 < left + (right - left) / 2 := by
        rcases Nat.lt_trichotomy i0 (left + (right - left) / 2) with h | h | h
        · exact h
        · exfalso
          rw [h] at hs
          omega
        · exfalso
          have hx := hsep (left + (right - left) / 2) i0 h hi0
          have hy := hle (left + (right - left) / 2) hmlen
          omega
      exact ih left (left + (right - left) / 2) (by omega) h2 hi0mid (by omega)
    · rw [if_neg h1]
      by_cases hgt : ip > t.end_ips.getD (left + (right - left) / 2) 0
      · rw [if_pos hgt]
        have hmidi0 : left + (right - left) / 2 < i0 := by
          rcases Nat.lt_trichotomy i0 (left + (right - left) / 2) with h | h | h
          · exfalso
            have hx := hsep i0 (left + (right - left) / 2) h hmlen
            have hy := hle (left + (right - left) / 2) hmlen
            omega
          · exfalso
            rw [h] at he
            omega
          · exact h
        exact ih (left + (right - left) / 2 + 1) right (by omega) (by omega)
          h3 h4
      · rw [if_neg hgt]
        have hmid : left + (right - left) / 2 = i0 := by
          rcases Nat.lt_trichotomy (left + (right - left) / 2) i0 with h | h | h
          · exfalso
            have hx := hsep (left + (right - left) / 2) i0 h hi0
            omega
          · exact h
          · exfalso
            have hx := hsep i0 (left + (right - left) / 2) h hmlen
            omega
        rw [hmid]

/-- C1: on a well-formed table whose ranges have start <= end, are
sorted ascending by start, and are pairwise disjoint, find_ip answers
every address inside some range with exactly that range's row (asn,
organization, country), including at both boundary addresses, and
answers none when no range contains the address. -/
theorem hot_table_find_correct (t : IpRangeTableV4) (hwf : t.wellFormed)
    (hsd : t.sortedDisjoint) (ip : Nat) :
    (∀ i, i < t.len → t.start_ips.getD i 0 ≤ ip → ip ≤ t.end_ips.getD i 0 →
       t.find_ip ip = some
         { asn := ⟨t.asns.getD i 0⟩
           organization := t.orgs.getD i ""
           country := some (t.countries.getD i "")
           description := none }) ∧
    ((∀ i ∈ List.range t.len,
        ¬(t.start_ips.getD i 0 ≤ ip ∧ ip ≤ t.end_ips.getD i 0)) →
       t.find_ip ip = none) := by
  obtain ⟨hn1, hn2, hn3, hn4, hn5⟩ := hwf
  constructor
  · intro i hi hs he
    have hle : ∀ j, j < t.len → t.start_ips.getD j 0 ≤ t.end_ips.getD j 0 :=
      fun j hj => hsd.1 j (List.mem_range.mpr hj)
    have hsep := sortedDisjoint_sep t hsd
    have hb : t.binary_search ip = some i :=
      binarySearchLoop_some t ip i hle hsep hi hs he t.len 0 t.len
        (by omega) (by omega) hi le_rfl
    have hio : i < t.orgs.length := by omega
    have hic : i < t.countries.length := by omega
    have horg : t.orgs.get? i = some (t.orgs.getD i "") := by
      rw [List.get?_eq_getElem?, List.getD_eq_getElem?_getD,
        List.getElem?_eq_getElem hio]
      rfl
    have hcountry : t.countries.get? i = some (t.countries.getD i "") := by
      rw [List.get?_eq_getElem?, List.getD_eq_getElem?_getD,
        List.getElem?_eq_getElem hic]
      rfl
    unfold IpRangeTableV4.find_ip
    rw [hb, Option.some_bind, horg, Option.some_bind, hcountry,
      Option.map_some']
  · intro hmiss
    have hb : t.binary_search ip = none :=
      binarySearchLoop_none t ip
        (fun i hi => hmiss i (List.mem_range.mpr hi)) t.len 0 t.len le_rfl
    unfold IpRangeTableV4.find_ip
    rw [hb]
    rfl

/-- Witness for C1 at the concrete inputs of the rasn-arrow test: 125 is
answered with the first row, the boundary 150 with the first row, and 50
with none. -/
theorem hot_table_find_correct_witness :
    testTable.find_ip 125
      = some { asn := ⟨1⟩, organization := "Org1", country := some "US"
               description := none } ∧
    testTable.find_ip 150
      = some { asn := ⟨1⟩, organization := "Org1", country := some "US"
               description := none } ∧
    testTable.find_ip 50 = none :=
  ⟨(hot_table_find_correct testTable (by decide) (by decide) 125).1 0
      (by decide) (by decide) (by decide),
   (hot_table_find_correct testTable (by decide) (by decide) 150).1 0
      (by decide) (by decide) (by decide),
   (hot_table_find_correct testTable (by decide) (by decide) 50).2
      (by decide)⟩

end Rasn
